import Mathlib

/-!
# Verification of the htex templating engine

A shallow embedding of the core of the `htex` hypertext templating engine
(tokenizer `splitHtexTokens`, parser `parseHtexScanner`, renderer
`writeHtexFile`, router `ServeHTTP` from `htex.go`), together with theorems
settling the specification claims about it.

Byte strings are modelled as `List Char` (the sources only manipulate ASCII
bytes in the relevant code paths).  The `bufio.Scanner` protocol is modelled
by running the split function over the whole in-memory buffer with
`atEOF = true`, which is the behaviour once the file content is buffered.
File systems, HTTP requests and the markdown transform are abstract
parameters (they are external collaborators of the core).
-/

set_option maxRecDepth 10000

/-- Byte strings of the Go sources, modelled as lists of characters. -/
abbrev Str := List Char

/-- ASCII case folding of one character (`strings.ToLower` /
`bytes.EqualFold` restricted to ASCII, which is all the engine compares). -/
def lowerChar (c : Char) : Char :=
  if 'A' ≤ c ∧ c ≤ 'Z' then Char.ofNat (c.toNat + 32) else c

/-- `strings.ToLower` on ASCII strings. -/
def lowerStr (s : Str) : Str := s.map lowerChar

/-- `bytes.EqualFold` on ASCII data: equal length and case-insensitively
equal characters. -/
def equalFold (a b : Str) : Bool := a.map lowerChar == b.map lowerChar

/-- The whitespace characters recognized inside a tag by the tokenizer
(`data[i] == ' ' || data[i] == '\r' || data[i] == '\n'`). -/
def wsChar (c : Char) : Bool := c == ' ' || c == '\r' || c == '\n'

/-- The comment scan loop shared by both comment branches of
`splitHtexTokens`: starting from the current position, the number of steps
taken by `for ; i+3 < len(data) && (data[i] != '-' || data[i+1] != '-' ||
data[i+2] != '>'); i++ {}`. -/
def commentScan : Str → Nat
  | a :: b :: c :: d :: rest =>
      if a == '-' && b == '-' && c == '>' then 0
      else commentScan (b :: c :: d :: rest) + 1
  | _ => 0

/-- The tag-name scan of `splitHtexTokens` (lines 121-132): scan for the
first `' '` or `'>'`; returns its index and which terminator was found
(`none` when the data ends first). -/
def tagScan : Str → Nat × Option Char
  | [] => (0, none)
  | c :: rest =>
      if c == ' ' then (0, some ' ')
      else if c == '>' then (0, some '>')
      else
        let r := tagScan rest
        (r.1 + 1, r.2)

/-- The mutable closure state of `splitHtexTokens`. -/
structure TokState where
  insideHtexElem : Bool := false
  insideComment : Bool := false
  closingHtexElem : Bool := false
deriving Repr, DecidableEq

/-- The character the Go code reads when it indexes past the end of the
provided buffer (`data[i+3]` under the insufficient guard `i+2 < len(data)`,
see claim C8): in a fresh `bufio` buffer the bytes past `len` are zero. -/
def oobByte : Char := Char.ofNat 0

/-- One pass of the `for i := 0; i < len(data); i++` loop of
`splitHtexTokens`, with the closure flags fixed for the duration of the loop
(the Go code only mutates them on paths that immediately return).
`acc` is the reversed list of the bytes already passed (`data[:i]`), so that
`acc.length = i` and `acc.reverse = data[:i]`.
`fuel` makes the recursion structural; every iteration consumes at least one
byte, so the buffer length is always enough fuel.
Returns `some (advance, token, newState)` when the loop body returns, and
`none` when the loop runs off the end of the buffer. -/
def scanLoop (kc inHtex inComment : Bool) : Nat → Str → Str → Option (Nat × Str × TokState)
  | _, _, [] => none
  | 0, _, _ => none
  | fuel + 1, acc, c :: rest =>
    -- while inside a tag: whitespace ends the current argument token
    if inHtex = true ∧ wsChar c = true then
      some (acc.length + 1 + (rest.takeWhile wsChar).length, acc.reverse,
        ⟨inHtex, inComment, false⟩)
    -- while inside a tag: '>' ends the tag and schedules the synthetic close
    else if inHtex = true ∧ c = '>' then
      some (acc.length, acc.reverse, ⟨false, inComment, true⟩)
    -- while inside a discarded comment: swallow through "-->"
    else if inHtex = false ∧ inComment = true ∧ kc = false then
      let d := commentScan (c :: rest)
      some (acc.length + d + 3, acc.reverse ++ (c :: rest).take (d + 3),
        ⟨inHtex, false, false⟩)
    -- tag start "<!" not followed by "doctype" (7-char lookahead, which the
    -- Go code takes past the end of the buffer; here truncated, matching the
    -- zeroed bytes of a fresh buffer)
    else if 2 ≤ rest.length ∧ c = '<' ∧ rest.headD ' ' = '!'
        ∧ equalFold (rest.tail.take 7) "doctype".data = false then
      -- HTML comment "<!--"? (`data[i+3]` is read past the end when only
      -- "<!-" remains; modelled by `oobByte`)
      if rest.tail.headD oobByte = '-' ∧ rest.tail.tail.headD oobByte = '-' then
        if kc then
          -- keep comments: fold the whole comment into the surrounding text
          let d := commentScan (c :: rest)
          scanLoop kc inHtex inComment fuel
            (((c :: rest).take (d + 3)).reverse ++ acc) ((c :: rest).drop (d + 3))
        else
          some (acc.length, acc.reverse, ⟨inHtex, true, false⟩)
      else
        -- a real tag
        if 0 < acc.length then
          some (acc.length, acc.reverse, ⟨true, inComment, false⟩)
        else
          match tagScan (c :: rest) with
          | (j, some t) =>
              if t = '>' then some (j, (c :: rest).take j, ⟨true, inComment, true⟩)
              else some (j + 1, (c :: rest).take j, ⟨true, inComment, false⟩)
          | (_, none) =>
              some ((c :: rest).length, c :: rest, ⟨true, inComment, false⟩)
    else
      scanLoop kc inHtex inComment fuel (c :: acc) rest

/-- The result of one call of the split function: either a token with the
number of consumed bytes and the new state, or the final EOF flush
(`bufio.ErrFinalToken` with the remaining data). -/
inductive SplitRes where
  | tok (advance : Nat) (token : Str) (st : TokState)
  | final (token : Str)
deriving Repr, DecidableEq

/-- One call of the closure returned by `splitHtexTokens`, on the remaining
buffer with `atEOF = true`. -/
def splitStep (kc : Bool) (st : TokState) (data : Str) : SplitRes :=
  if st.closingHtexElem then
    .tok 1 (data.take 1) { st with closingHtexElem := false }
  else
    match scanLoop kc st.insideHtexElem st.insideComment data.length [] data with
    | some (a, t, st') => .tok a t st'
    | none => .final data

/-- The `bufio.Scanner` loop driving the split function: collect every token
(including empty ones, which the scanner does emit) until the final token.
`fuel` bounds the number of calls; `tokenizeAll` supplies enough for every
terminating run. -/
def scannerRun (kc : Bool) : Nat → TokState → Str → List Str
  | 0, _, _ => []
  | fuel + 1, st, data =>
      match splitStep kc st data with
      | .final t => [t]
      | .tok a t st' => t :: scannerRun kc fuel st' (data.drop a)

/-- Tokenizing a whole buffer from the initial scanner state. -/
def tokenizeAll (kc : Bool) (data : Str) : List Str :=
  scannerRun kc (2 * data.length + 8) ⟨false, false, false⟩ data

-- sanity checks against the repository's own tests (TestSkipComments,
-- TestKeepComments, TestDocType)
example : tokenizeAll false "a<!-->b".data = ["a".data, "<!-->".data, "b".data] := by decide
example : tokenizeAll false "a<!--".data = ["a".data, "<!--".data, "".data] := by decide
example : tokenizeAll true "a<!-- c -->b".data = ["a<!-- c -->b".data] := by decide
example : tokenizeAll false "a<!DOCTYPE html>b<!DocType html>c".data
    = ["a<!DOCTYPE html>b<!DocType html>c".data] := by decide
example : tokenizeAll false "<!set x>y".data
    = ["<!set".data, "x".data, ">".data, "y".data] := by decide

/-! ## `url.Values` and `matchQuery` -/

/-- `url.Values`: a map from key to list of values, modelled as an
association list with unique keys (the only operations used are `Add`,
`Has`, `Get` and direct indexing, whose results agree with Go's map). -/
abbrev Values := List (Str × List Str)

/-- `url.Values.Add`: append the value to the slice stored under the key. -/
def Values.add : Values → Str → Str → Values
  | [], k, v => [(k, [v])]
  | (k', l) :: rest, k, v =>
      if k' = k then (k', l ++ [v]) :: rest else (k', l) :: Values.add rest k v

/-- Direct map indexing `v[key]` (empty slice when absent). -/
def Values.index (vs : Values) (k : Str) : List Str :=
  (((vs.find? fun p => p.1 == k).map fun p => p.2)).getD []

/-- `url.Values.Has`. -/
def Values.has (vs : Values) (k : Str) : Bool :=
  (vs.find? fun p => p.1 == k).isSome

/-- `url.Values.Get`: first value stored under the key, or `""`. -/
def Values.get (vs : Values) (k : Str) : Str := (vs.index k).headD []

/-- `matchQuery(a, b)` (htex.go lines 329-342): every key of `a` must be
present in `b`, and when `a` carries a first value that is non-empty it must
equal `b`'s value for that key. -/
def matchQuery (a b : Values) : Bool :=
  a.all fun kv =>
    b.has kv.1 &&
      (match kv.2 with
       | [] => true
       | v0 :: _ => if v0 = [] then true else b.get kv.1 == v0)

/-! ## The element model -/

/-- `ElemKind` (htex.go lines 25-40). -/
inductive ElemKind where
  | none | text | content | get | set | url | method | data | query
  | includeRaw | includeEscaped | includeMarkdown
deriving Repr, DecidableEq

/-- `Elem` (htex.go lines 42-46). -/
structure Elem where
  kind : ElemKind
  text : Str
  values : Option Values
deriving Repr, DecidableEq

/-- `HtexFile` (htex.go lines 48-52): source path, element sequence, and the
optional parsed `<!layout>` file. -/
inductive HtexFile where
  | mk (fn : Str) (elems : List Elem) (layout : Option HtexFile)

/-- Source path of an `HtexFile`. -/
def HtexFile.fn : HtexFile → Str
  | .mk fn _ _ => fn

/-- Element sequence of an `HtexFile`. -/
def HtexFile.elems : HtexFile → List Elem
  | .mk _ elems _ => elems

/-- Layout chain of an `HtexFile`. -/
def HtexFile.layout : HtexFile → Option HtexFile
  | .mk _ _ layout => layout

/-! ## The `path` / `filepath` functions used by the engine

On Linux `filepath.Join/Dir` agree with `path.Join/Dir` for the
slash-separated paths the engine builds, so both are modelled by the same
functions. -/

/-- The backtracking step of `path.Clean`'s `..` handling
(`out.w--; for out.w > dotdot && out.index(out.w) != '/' { out.w-- }`),
on the reversed output buffer. -/
def popSeg (dd : Nat) : Str → Str
  | [] => []
  | c :: rest => if decide (dd < rest.length) && !(c == '/') then popSeg dd rest else rest

/-- The main loop of `path.Clean` (Go `path/path.go`), over the remaining
input; `out` is the reversed output buffer, `dd` the `dotdot` barrier.
`fuel` makes the recursion structural; every iteration consumes at least one
input byte, so the input length is always enough fuel. -/
def cleanLoop (rooted : Bool) : Nat → Str → Str → Nat → Str
  | _, [], out, _ => out
  | 0, _, out, _ => out
  | fuel + 1, c :: rest, out, dd =>
    if c = '/' then
      -- empty path element
      cleanLoop rooted fuel rest out dd
    else if c = '.' ∧ (rest = [] ∨ rest.headD ' ' = '/') then
      -- "." element
      cleanLoop rooted fuel rest out dd
    else if c = '.' ∧ rest.headD ' ' = '.' ∧ (rest.tail = [] ∨ rest.tail.headD ' ' = '/') then
      -- ".." element: backtrack or keep the ".."
      let rest' := rest.tail
      if dd < out.length then
        cleanLoop rooted fuel rest' (popSeg dd out) dd
      else if !rooted then
        let out' := '.' :: '.' :: (if 0 < out.length then '/' :: out else out)
        cleanLoop rooted fuel rest' out' out'.length
      else
        cleanLoop rooted fuel rest' out dd
    else
      -- real path element: copy it, preceded by a slash when needed
      let out' := if (rooted ∧ out.length ≠ 1) ∨ (¬rooted ∧ out.length ≠ 0)
        then '/' :: out else out
      let seg := (c :: rest).takeWhile (· ≠ '/')
      cleanLoop rooted fuel ((c :: rest).dropWhile (· ≠ '/')) (seg.reverse ++ out') dd

/-- `path.Clean` (also `filepath.Clean` on Linux). -/
def goClean (p : Str) : Str :=
  if p = [] then ".".data
  else
    let rooted := p.headD ' ' = '/'
    let out :=
      if rooted then cleanLoop rooted p.length p.tail ['/'] 1
      else cleanLoop rooted p.length p [] 0
    if out.length = 0 then ".".data else out.reverse

/-- `path.Join` for two elements: empty elements are dropped, the rest is
joined with `/` and cleaned. -/
def goJoin (a b : Str) : Str :=
  if a = [] then (if b = [] then [] else goClean b)
  else goClean (a ++ '/' :: b)

/-- `path.Base`: strip trailing slashes, then take everything after the last
slash. -/
def goBase (p : Str) : Str :=
  if p = [] then ".".data
  else
    let q := p.reverse.dropWhile (· = '/')
    let b := q.takeWhile (· ≠ '/')
    if b = [] then "/".data else b.reverse

/-- `path.Dir`: everything up to and including the last slash, cleaned. -/
def goDir (p : Str) : Str :=
  goClean (p.reverse.dropWhile (· ≠ '/')).reverse

/-- The backwards scan of `path.Ext` over the reversed path; `acc` holds the
bytes already passed, in forward order. -/
def extScan (acc : Str) : Str → Str
  | [] => []
  | c :: rest =>
      if c = '/' then []
      else if c = '.' then c :: acc
      else extScan (c :: acc) rest

/-- `path.Ext`: the suffix starting at the final dot of the last path
element, or `""`. -/
def goExt (p : Str) : Str := extScan [] p.reverse

/-- `strings.Contains`. -/
def strContains : Str → Str → Bool
  | s, sub =>
    if sub.isPrefixOf s then true
    else match s with
      | [] => false
      | _ :: t => strContains t sub

-- sanity checks for the path functions against Go's documented behaviour
example : goClean "/a/b/..".data = "/a".data := by decide
example : goClean "//x/./y//".data = "/x/y".data := by decide
example : goClean "/..".data = "/".data := by decide
example : goClean "a/../..".data = "..".data := by decide
example : goClean "".data = ".".data := by decide
example : goJoin "root".data "/layout.htex".data = "root/layout.htex".data := by decide
example : goBase "/a/b.htex".data = "b.htex".data := by decide
example : goBase "/".data = "/".data := by decide
example : goDir "root/page.htex".data = "root".data := by decide
example : goExt "/a/b.htex".data = ".htex".data := by decide
example : goExt "/a.b/c".data = "".data := by decide
example : strContains "/a/.git".data "/.".data = true := by decide
example : strContains "/a/git".data "/.".data = false := by decide

/-! ## The engine environment and the parser -/

/-- Classification of an `os.Stat` result as used by `ServeHTTP`. -/
inductive GoStat where
  | missing | regular | directory | other
deriving Repr, DecidableEq

/-- The engine configuration together with its external collaborators: the
content root and `KeepComments` flag of the `Htex` struct, the read-only
file system (`os.Open`/`os.ReadFile` as content, `os.Stat` as
classification) and the external markdown-to-HTML transform. -/
structure Env where
  localRoot : Str
  keepComments : Bool
  readFile : Str → Option Str
  statFile : Str → GoStat
  markdown : Str → Str

/-- `solveUrlPathToLocalPath` (htex.go lines 147-153): absolute URL paths
resolve from the content root, relative ones from the directory of the
referencing file.  (The Go code indexes `urlPath[0]` and would panic on an
empty path; the model reads a non-`'/'` placeholder instead.) -/
def solveUrlPathToLocalPath (env : Env) (relativeTo urlPath : Str) : Str :=
  if urlPath.headD oobByte = '/' then goJoin env.localRoot urlPath
  else goJoin (goDir relativeTo) urlPath

/-- The `<!set>` argument loop (htex.go lines 227-237): collect value words
until the closing `>` (which stays in the stream, `nextToken = false`) or
until the scanner is exhausted. -/
def collectSetValues (varName : Str) : List Str → Option Values → Option Values × List Str
  | [], vals => (vals, [])
  | t :: r, vals =>
      if t = ">".data then (vals, t :: r)
      else collectSetValues varName r (some ((vals.getD []).add varName t))

/-- The `<!method>` constraint loop (htex.go lines 276-287): collect
`key`/`key=value` words (split by `strings.Cut` on `'='`) until the closing
`>` or exhaustion. -/
def collectMethodValues : List Str → Option Values → Option Values × List Str
  | [], vals => (vals, [])
  | t :: r, vals =>
      if t = ">".data then (vals, t :: r)
      else
        let name := t.takeWhile (· ≠ '=')
        let value := (t.dropWhile (· ≠ '=')).tail
        collectMethodValues r (some ((vals.getD []).add name value))

/-- The test `len(tok) > 2 && tok[0] == '<' && tok[1] == '!'` of
`parseHtexScanner`. -/
def htexTagShape (tok : Str) : Bool :=
  decide (2 < tok.length) && tok.headD ' ' == '<' && tok.tail.headD ' ' == '!'

/-- The token-consuming loop of `parseHtexScanner` (htex.go lines 171-327).
`inEl` is the parser's `insideHtexElem`, `acc` the elements collected so
far, `lay` the layout parsed so far.  Reading a layout file inlines
`parseHtexFile` (open, tokenize, recurse).  A failed `scanner.Scan()`
leaves `scanner.Text()` at the previous token, which only the
`<!include-escaped>`/`<!include-markdown>` branches observe.
`fuel` bounds the total number of loop iterations over all nested layout
parses (the Go code can recurse forever on cyclic layout files). -/
def parseTokens (env : Env) : Nat → Str → Bool → List Elem → Option HtexFile →
    List Str → Except Unit HtexFile
  | 0, _, _, _, _, _ => .error ()
  | _ + 1, fn, _, acc, lay, [] => .ok (.mk fn acc lay)
  | fuel + 1, fn, inEl, acc, lay, tok :: rest =>
    if htexTagShape tok then
      let lowerTok := lowerStr tok
      if "<!doctype".data.isPrefixOf lowerTok
          || (env.keepComments && "<!--".data.isPrefixOf tok) then
        parseTokens env fuel fn inEl (acc ++ [⟨.text, tok, none⟩]) lay rest
      else
        -- insideHtexElem = true from here on
        if "<!layout".data.isPrefixOf lowerTok then
          match rest with
          | [] => .ok (.mk fn acc lay)
          | t2 :: r2 =>
            if t2 = ">".data then parseTokens env fuel fn true acc lay (t2 :: r2)
            else
              let layoutFn := solveUrlPathToLocalPath env fn t2
              match env.readFile layoutFn with
              | none => .error ()
              | some src =>
                match parseTokens env fuel layoutFn false [] none
                    (tokenizeAll env.keepComments src) with
                | .error e => .error e
                | .ok l => parseTokens env fuel fn true acc (some l) r2
        else if lowerTok = "<!content".data then
          parseTokens env fuel fn true (acc ++ [⟨.content, [], none⟩]) lay rest
        else if lowerTok = "<!get".data then
          match rest with
          | [] => .ok (.mk fn acc lay)
          | t2 :: r2 => parseTokens env fuel fn true (acc ++ [⟨.get, t2, none⟩]) lay r2
        else if lowerTok = "<!set".data then
          match rest with
          | [] => .ok (.mk fn acc lay)
          | t2 :: r2 =>
            let (vals, r3) := collectSetValues t2 r2 none
            parseTokens env fuel fn true (acc ++ [⟨.set, t2, vals⟩]) lay r3
        else if lowerTok = "<!url".data then
          parseTokens env fuel fn true (acc ++ [⟨.url, [], none⟩]) lay rest
        else if lowerTok = "<!data".data then
          match rest with
          | [] => .ok (.mk fn acc lay)
          | t2 :: r2 =>
            if t2 = ">".data then parseTokens env fuel fn true acc lay (t2 :: r2)
            else parseTokens env fuel fn true (acc ++ [⟨.data, t2, none⟩]) lay r2
        else if lowerTok = "<!query".data then
          match rest with
          | [] => .ok (.mk fn acc lay)
          | t2 :: r2 =>
            if t2 = ">".data then
              parseTokens env fuel fn true (acc ++ [⟨.query, [], none⟩]) lay (t2 :: r2)
            else parseTokens env fuel fn true (acc ++ [⟨.query, t2, none⟩]) lay r2
        else if lowerTok = "<!method".data then
          match rest with
          | [] => .ok (.mk fn acc lay)
          | t2 :: r2 =>
            if t2 = ">".data then
              parseTokens env fuel fn true (acc ++ [⟨.method, [], none⟩]) lay (t2 :: r2)
            else
              let (vals, r3) := collectMethodValues r2 none
              parseTokens env fuel fn true (acc ++ [⟨.method, lowerStr t2, vals⟩]) lay r3
        else if lowerTok = "<!include-raw".data then
          match rest with
          | [] => .ok (.mk fn acc lay)
          | t2 :: r2 =>
            if t2 = ">".data then parseTokens env fuel fn true acc lay (t2 :: r2)
            else parseTokens env fuel fn true (acc ++ [⟨.includeRaw, t2, none⟩]) lay r2
        else if lowerTok = "<!include-escaped".data then
          match rest with
          | [] => parseTokens env fuel fn true (acc ++ [⟨.includeEscaped, tok, none⟩]) lay []
          | t2 :: r2 =>
            parseTokens env fuel fn true (acc ++ [⟨.includeEscaped, t2, none⟩]) lay r2
        else if lowerTok = "<!include-markdown".data then
          match rest with
          | [] => parseTokens env fuel fn true (acc ++ [⟨.includeMarkdown, tok, none⟩]) lay []
          | t2 :: r2 =>
            parseTokens env fuel fn true (acc ++ [⟨.includeMarkdown, t2, none⟩]) lay r2
        else if "<!--".data.isPrefixOf tok then
          -- a whole swallowed comment token: ignored
          parseTokens env fuel fn false acc lay rest
        else
          -- "invalid htex element": logged and dropped
          parseTokens env fuel fn true acc lay rest
    else if inEl then
      if tok = ">".data then parseTokens env fuel fn false acc lay rest
      else parseTokens env fuel fn inEl acc lay rest
    else if tok ≠ [] then
      parseTokens env fuel fn inEl (acc ++ [⟨.text, tok, none⟩]) lay rest
    else
      parseTokens env fuel fn inEl acc lay rest

/-- Fuel that suffices for every token list the claims exercise (each
iteration consumes a token or is immediately followed by one that does). -/
def parseFuel (toks : List Str) : Nat := 2 * toks.length + 64

/-- `parseHtexScanner` (htex.go lines 171-327) on a token stream. -/
def parseHtexScanner (env : Env) (fn : Str) (toks : List Str) : Except Unit HtexFile :=
  parseTokens env (parseFuel toks) fn false [] none toks

/-- `parseHtexFile` (htex.go lines 155-169): open the file and parse its
token stream. -/
def parseHtexFile (env : Env) (fn : Str) : Except Unit HtexFile :=
  match env.readFile fn with
  | none => .error ()
  | some src => parseHtexScanner env fn (tokenizeAll env.keepComments src)

/-! ## The renderer -/

/-- The request context consumed by the renderer: method, URL path, raw
query string, the parsed query (`r.URL.Query()`) and the parsed form
(`r.Form` after `ParseForm`). -/
structure Req where
  method : Str
  urlPath : Str
  rawQuery : Str
  query : Values
  form : Values

/-- The render-loop state of `writeHtexFile`: the `skipUntilNewMethod`
flag, the `vars` map (association list with unique keys, standing for Go's
`map[string]string`) and the bytes written to the response so far. -/
structure RState where
  skipping : Bool
  vars : List (Str × Str)
  out : Str

/-- Go map read `value, exist := vars[k]`. -/
def varsGet (vars : List (Str × Str)) (k : Str) : Option Str :=
  (vars.find? fun p => p.1 == k).map fun p => p.2

/-- Go map write `vars[k] = v`. -/
def varsSet : List (Str × Str) → Str → Str → List (Str × Str)
  | [], k, v => [(k, v)]
  | (k', v') :: rest, k, v =>
      if k' = k then (k, v) :: rest else (k', v') :: varsSet rest k v

/-- Go map `delete(vars, k)`. -/
def varsDel (vars : List (Str × Str)) (k : Str) : List (Str × Str) :=
  vars.filter fun p => !(p.1 == k)

/-- One character of `html.EscapeString`. -/
def escapeChar (c : Char) : Str :=
  if c = '&' then "&amp;".data
  else if c = '\'' then "&#39;".data
  else if c = '<' then "&lt;".data
  else if c = '>' then "&gt;".data
  else if c = '"' then "&#34;".data
  else [c]

/-- `html.EscapeString`. -/
def htmlEscape (s : Str) : Str := (s.map escapeChar).flatten

/-- One iteration of the element loop of `writeHtexFile` (htex.go lines
368-433), for the file `fn`, the optional `content` continuation and the
element `e`.  A continuation is the content callback of the Go code; it
returns the bytes it writes to the shared response writer. -/
def renderStep (env : Env) (req : Req) (fn : Str) (cont : Option (Req → Str))
    (st : RState) (e : Elem) : RState :=
  if e.kind = .method then
    if ((e.text == lowerStr req.method)
        && (e.values.isNone || matchQuery (e.values.getD []) req.query))
        || e.text == "any".data then
      { st with skipping := false }
    else
      { st with skipping := true }
  else if st.skipping then st
  else if e.kind = .content then
    match cont with
    | some f => { st with out := st.out ++ f req }
    | none => st
  else if e.kind = .get then
    match varsGet st.vars e.text with
    | some v => { st with out := st.out ++ v }
    | none => st
  else if e.kind = .set then
    match e.values with
    | some vs => { st with vars := varsSet st.vars e.text ((vs.index e.text).headD []) }
    | none => { st with vars := varsDel st.vars e.text }
  else if e.kind = .url then
    { st with out := st.out ++ goClean req.urlPath }
  else if e.kind = .data then
    if req.form.has e.text then
      { st with out := st.out ++ (req.form.index e.text).headD [] }
    else st
  else if e.kind = .query then
    if e.text ≠ [] then
      if req.query.has e.text then { st with out := st.out ++ req.query.get e.text }
      else st
    else { st with out := st.out ++ req.rawQuery }
  else if e.kind = .includeRaw ∨ e.kind = .includeEscaped ∨ e.kind = .includeMarkdown then
    let file := solveUrlPathToLocalPath env fn e.text
    match env.readFile file with
    | none => st
    | some content =>
      let content :=
        if e.kind = .includeEscaped then htmlEscape content
        else if e.kind = .includeMarkdown then env.markdown content
        else content
      { st with out := st.out ++ content }
  else if e.kind = .text then
    { st with out := st.out ++ e.text }
  else st

/-- Length of the layout chain hanging off a file. -/
def layoutDepth : Option HtexFile → Nat
  | none => 0
  | some (.mk _ _ lay) => layoutDepth lay + 1

/-- The body of `writeHtexFile` (htex.go lines 354-434), with a fuel
argument that makes the layout recursion structural: render the layout
chain outside-in (the page itself becomes the continuation of its layout),
then walk the element sequence; returns the bytes written.  Each call
starts with a fresh `vars` map and `skipping = false`.  The fuel supplied
by `writeHtexFile` always exceeds the (finite) layout-chain depth. -/
def writeHtexFuel (env : Env) : Nat → Req → HtexFile → Option HtexFile →
    Option (Req → Str) → Str
  | 0, _, _, _, _ => []
  | fuel + 1, req, hf, some l, cont =>
      writeHtexFuel env fuel req l l.layout
        (some fun r2 => writeHtexFuel env fuel r2 hf none cont)
  | _ + 1, req, hf, none, cont =>
      (hf.elems.foldl (renderStep env req hf.fn cont) ⟨false, [], []⟩).out

/-- `writeHtexFile` (htex.go lines 354-434). -/
def writeHtexFile (env : Env) (req : Req) (hf : HtexFile) (layout : Option HtexFile)
    (cont : Option (Req → Str)) : Str :=
  writeHtexFuel env (layoutDepth layout + 2) req hf layout cont

/-- Parse a source buffer with `parseHtexScanner` and render the result with
`writeHtexFile` exactly as the dynamic-file path of `ServeHTTP` does
(`h.writeHtexFile(w, r, hf, hf.layout, nil)`). -/
def parseAndWrite (env : Env) (req : Req) (fn : Str) (src : Str) : Except Unit Str :=
  (parseHtexScanner env fn (tokenizeAll env.keepComments src)).map fun hf =>
    writeHtexFile env req hf hf.layout none

/-- Open, parse and render one file, as `ServeHTTP`'s dynamic branch does. -/
def serveHtexFile (env : Env) (req : Req) (fn : Str) : Except Unit Str :=
  (parseHtexFile env fn).map fun hf => writeHtexFile env req hf hf.layout none

/-! ## The router (`ServeHTTP`) -/

/-- The dispatch decision of `ServeHTTP` (htex.go lines 436-539).  The two
`earlyNotFound*` results are produced before the file system is consulted;
the remaining constructors say which file answers the request. -/
inductive ServeResult where
  | earlyNotFoundHtex
  | earlyNotFoundHidden
  | serveStatic (fn : Str)
  | serveDynamic (fn : Str)
  | serveWildcard (fn : Str)
  | serveHtml (fn : Str)
  | notFound404
deriving Repr, DecidableEq

/-- `ServeHTTP` (htex.go lines 436-539) as a dispatch function on the
request's URL path. -/
def serveHTTP (env : Env) (reqPath : Str) : ServeResult :=
  let url := goClean reqPath
  let fn0 := goJoin env.localRoot url
  let fn := if goBase fn0 = ".".data then goJoin (goDir fn0) "index".data else fn0
  -- ignore requests to access ".htex" files as static content
  if goExt fn = ".htex".data then .earlyNotFoundHtex
  -- ignore hidden folders/files except "/.well-known"
  else if strContains url "/.".data && !("/.well-known".data.isPrefixOf url) then
    .earlyNotFoundHidden
  else if env.statFile fn = .regular then .serveStatic fn
  else
    let fn := if env.statFile fn = .directory then fn ++ "/index".data else fn
    if env.statFile (fn ++ ".htex".data) = .regular then .serveDynamic (fn ++ ".htex".data)
    else
      let fnDir := (fn.reverse.dropWhile (· ≠ '/')).reverse
      let wildcardFn := goJoin fnDir "_.htex".data
      if env.statFile wildcardFn = .regular then .serveWildcard wildcardFn
      else if env.statFile (fn ++ ".html".data) = .regular then .serveHtml (fn ++ ".html".data)
      else .notFound404

/-! ## Concrete environments and requests used by the claim instances -/

/-- A file system with no files. -/
def noFiles : Str → Option Str := fun _ => none

/-- A stat function finding nothing. -/
def noStat : Str → GoStat := fun _ => .missing

/-- A minimal environment with content root `root` and no files. -/
def testEnv (kc : Bool) : Env :=
  ⟨"root".data, kc, noFiles, noStat, id⟩

/-- A plain `GET /` request with no query and no form. -/
def reqGET : Req := ⟨"GET".data, "/".data, [], [], []⟩

/-- A plain `POST /` request with no query and no form. -/
def reqPOST : Req := ⟨"POST".data, "/".data, [], [], []⟩

-- end-to-end sanity checks against the repository's own tests
-- (cli.go TestBasic/TestSkipComments/TestKeepComments/TestDocType/
--  TestData/TestMethodGet)
example : parseAndWrite (testEnv false) reqGET "t".data "".data = .ok "".data := rfl
example : parseAndWrite (testEnv false) reqGET "t".data "a".data = .ok "a".data := rfl
example : parseAndWrite (testEnv false) reqGET "t".data "a<!--->b".data = .ok "ab".data := rfl
example : parseAndWrite (testEnv false) reqGET "t".data "a<!---->b".data = .ok "ab".data := rfl
example : parseAndWrite (testEnv false) reqGET "t".data "abcd<!-- c --".data
    = .ok "abcd".data := rfl
example : parseAndWrite (testEnv true) reqGET "t".data "abcd<!-- c --".data
    = .ok "abcd<!-- c --".data := rfl
example : parseAndWrite (testEnv false) reqGET "t".data "a<!data x>b<!data y>c".data
    = .ok "abc".data := rfl
example : parseAndWrite (testEnv false) reqGET "t".data "a<!method>b".data
    = .ok "a".data := rfl
example : parseAndWrite (testEnv false) reqGET "t".data "a<!method any>b".data
    = .ok "ab".data := rfl
example : parseAndWrite (testEnv false) reqGET "t".data "a<!method get>b<!method post>c".data
    = .ok "ab".data := rfl
example : parseAndWrite (testEnv false) reqPOST "t".data "a<!method get>b<!method post>c".data
    = .ok "ac".data := rfl
example : parseAndWrite (testEnv false) reqGET "t".data "a<!method get id>id".data
    = .ok "a".data := rfl
example :
    parseAndWrite (testEnv false)
      ⟨"GET".data, "/".data, "id=42".data, [("id".data, ["42".data])], []⟩
      "t".data "a,<!method get id>id=<!query id>".data = .ok "a,id=42".data := rfl
example : parseAndWrite (testEnv false) reqGET "t".data "<!set x hello><!get x>".data
    = .ok "hello".data := rfl
example : parseAndWrite (testEnv false) reqGET "t".data "<!get x>".data = .ok "".data := rfl

/-! ## Claim C4: layout nesting -/

/-- The two-file content root of the layout round-trip: a page wrapping
itself in `/layout.htex` and the layout with a `<!content>` slot. -/
def layoutFs : Str → Option Str := fun p =>
  if p = "root/page.htex".data then some "<!layout /layout.htex><p>Hi</p>".data
  else if p = "root/layout.htex".data then some "<html><!content></html>".data
  else none

/-- Environment serving `layoutFs` from root `root`. -/
def layoutEnv : Env := ⟨"root".data, false, layoutFs, noStat, id⟩

/-- **C4**  Rendering a page whose `<!layout>` names a layout file containing
a `<!content>` slot produces the layout's output with the page's own
rendered output substituted at the Content element: layout
`<html><!content></html>` wrapping page `<p>Hi</p>` renders
`<html><p>Hi</p></html>`; rendering the layout file directly, with no
continuation supplied, emits nothing at the Content element and renders
`<html></html>`. -/
theorem layout_content_roundtrip (req : Req) :
    serveHtexFile layoutEnv req "root/page.htex".data
      = .ok "<html><p>Hi</p></html>".data ∧
    serveHtexFile layoutEnv req "root/layout.htex".data
      = .ok "<html></html>".data :=
  ⟨rfl, rfl⟩

/-! ## Claim C5: comment handling in both modes -/

/-- **C5**  With `KeepComments = false` an HTML comment contributes nothing
to the rendered output: `a<!-->b` renders `ab`, `a<!-- c -->b` renders
`ab`, and the unterminated `a<!--` renders `a` (the remainder dropped
silently); with `KeepComments = true` each of those inputs parses as a
single Text element and renders unchanged. -/
theorem comment_modes (lr : Str) (rf : Str → Option Str) (sf : Str → GoStat)
    (md : Str → Str) (req : Req) (fn : Str) :
    parseAndWrite ⟨lr, false, rf, sf, md⟩ req fn "a<!-->b".data = .ok "ab".data ∧
    parseAndWrite ⟨lr, false, rf, sf, md⟩ req fn "a<!-- c -->b".data = .ok "ab".data ∧
    parseAndWrite ⟨lr, false, rf, sf, md⟩ req fn "a<!--".data = .ok "a".data ∧
    parseHtexScanner ⟨lr, true, rf, sf, md⟩ fn (tokenizeAll true "a<!-->b".data)
      = .ok (.mk fn [⟨.text, "a<!-->b".data, none⟩] none) ∧
    parseAndWrite ⟨lr, true, rf, sf, md⟩ req fn "a<!-->b".data = .ok "a<!-->b".data ∧
    parseHtexScanner ⟨lr, true, rf, sf, md⟩ fn (tokenizeAll true "a<!-- c -->b".data)
      = .ok (.mk fn [⟨.text, "a<!-- c -->b".data, none⟩] none) ∧
    parseAndWrite ⟨lr, true, rf, sf, md⟩ req fn "a<!-- c -->b".data
      = .ok "a<!-- c -->b".data ∧
    parseHtexScanner ⟨lr, true, rf, sf, md⟩ fn (tokenizeAll true "a<!--".data)
      = .ok (.mk fn [⟨.text, "a<!--".data, none⟩] none) ∧
    parseAndWrite ⟨lr, true, rf, sf, md⟩ req fn "a<!--".data = .ok "a<!--".data :=
  ⟨rfl, rfl, rfl, rfl, rfl, rfl, rfl, rfl, rfl⟩

/-! ## Claim C6: doctype declarations are never tags -/

/-- **C6**  A `<!doctype ...>` declaration, in any letter case, is never
tokenized or parsed as a tag: `a<!DOCTYPE html>b<!DocType html>c` is a
single token, parses as exactly one Text element covering the whole string,
and renders as itself (for every environment and request). -/
theorem doctype_never_tag (env : Env) (req : Req) (fn : Str) :
    tokenizeAll env.keepComments "a<!DOCTYPE html>b<!DocType html>c".data
      = ["a<!DOCTYPE html>b<!DocType html>c".data] ∧
    parseHtexScanner env fn ["a<!DOCTYPE html>b<!DocType html>c".data]
      = .ok (.mk fn [⟨.text, "a<!DOCTYPE html>b<!DocType html>c".data, none⟩] none) ∧
    parseAndWrite env req fn "a<!DOCTYPE html>b<!DocType html>c".data
      = .ok "a<!DOCTYPE html>b<!DocType html>c".data :=
  ⟨rfl, rfl, rfl⟩

/-! ## Claim C3: `<!method>` with no method name (corrected) -/

/-- **C3, counterexample**  A bare `<!method>` parses as a Method element
with empty name, and — contrary to the claim that it resets `skipping` to
false — rendering `a<!method>b` under `GET` yields `a`, not `ab`: the
element turns skipping ON (the repository's own test `TestMethodGet`
asserts exactly this output). -/
theorem method_empty_counterexample :
    parseHtexScanner (testEnv false) "t".data (tokenizeAll false "a<!method>b".data)
      = .ok (.mk "t".data
          [⟨.text, "a".data, none⟩, ⟨.method, [], none⟩, ⟨.text, "b".data, none⟩] none) ∧
    parseAndWrite (testEnv false) reqGET "t".data "a<!method>b".data = .ok "a".data ∧
    renderStep (testEnv false) reqGET "t".data none ⟨false, [], []⟩ ⟨.method, [], none⟩
      = ⟨true, [], []⟩ ∧
    "a".data ≠ "ab".data :=
  ⟨rfl, rfl, rfl, by decide⟩

/-- **C3, amended**  A `<!method>` tag closed immediately with no method
name parses as a Method element with empty name; for every request whose
method is nonempty, processing that element sets `skipping` to TRUE (the
empty name matches neither the request method nor the wildcard `any`), so
subsequent elements are skipped until the next matching Method element; the
element itself writes no output. -/
theorem method_empty_skips (env : Env) (req : Req) (fn : Str)
    (cont : Option (Req → Str)) (st : RState) (h : req.method ≠ []) :
    renderStep env req fn cont st ⟨.method, [], none⟩ = { st with skipping := true } := by
  have h1 : (([] : Str) == lowerStr req.method) = false := by
    cases hm : req.method with
    | nil => exact absurd hm h
    | cons c cs => simp [lowerStr, hm]
  have h2 : (([] : Str) == "any".data) = false := by decide
  simp [renderStep, h1, h2]

/-- Witness for `method_empty_skips` at a concrete `GET` request. -/
theorem method_empty_skips_witness :
    reqGET.method ≠ [] ∧
    renderStep (testEnv false) reqGET "t".data none ⟨false, [], []⟩ ⟨.method, [], none⟩
      = ⟨true, [], []⟩ :=
  ⟨by decide,
   method_empty_skips (testEnv false) reqGET "t".data none ⟨false, [], []⟩ (by decide)⟩

/-! ## Claim C7: truncated tags (corrected) -/

/-- **C7, counterexample**  An input ending in a truncated recognized tag
start is NOT rendered verbatim: `a<!x` renders `a` — the flushed final
token `<!x` is parsed as a tag-open token and dropped as an invalid
element, not emitted as text. -/
theorem truncated_tag_counterexample :
    parseAndWrite (testEnv false) reqGET "t".data "a<!x".data = .ok "a".data ∧
    "a".data ≠ "a<!x".data :=
  ⟨rfl, by decide⟩

/-! ## Claim C9: skipped elements have no effect -/

/-- **C9**  While the skipping flag is true, every element other than a
Method element leaves the render state (output bytes, variable mapping and
the flag itself) completely unchanged — for every environment, so a skipped
Include element reads nothing from the file system and a skipped Set
element leaves the variable mapping unchanged. -/
theorem skipping_frame (env : Env) (req : Req) (fn : Str) (cont : Option (Req → Str))
    (st : RState) (e : Elem) (hskip : st.skipping = true) (hkind : e.kind ≠ .method) :
    renderStep env req fn cont st e = st := by
  simp [renderStep, hkind, hskip]

/-- Witness for `skipping_frame`: a skipped Set element at a concrete
state. -/
theorem skipping_frame_witness :
    (⟨true, [("x".data, "1".data)], "o".data⟩ : RState).skipping = true ∧
    (⟨.set, "x".data, none⟩ : Elem).kind ≠ .method ∧
    renderStep (testEnv false) reqGET "t".data none
        ⟨true, [("x".data, "1".data)], "o".data⟩ ⟨.set, "x".data, none⟩
      = ⟨true, [("x".data, "1".data)], "o".data⟩ :=
  ⟨rfl, by decide,
   skipping_frame (testEnv false) reqGET "t".data none _ _ rfl (by decide)⟩

/-! ## Claim C2: method filtering semantics -/

/-- `matchQuery a b` succeeds exactly when every constrained key of `a` is
present in `b` and, where a non-empty first value was given, equals `b`'s
value for that key. -/
theorem matchQuery_eq_true_iff (a b : Values) :
    matchQuery a b = true ↔
      ∀ kv ∈ a, b.has kv.1 = true ∧
        (kv.2.headD [] ≠ [] → b.get kv.1 = kv.2.headD []) := by
  unfold matchQuery
  rw [List.all_eq_true]
  refine forall₂_congr fun kv _ => ?_
  rw [Bool.and_eq_true]
  refine and_congr Iff.rfl ?_
  cases h2 : kv.2 with
  | nil => simp
  | cons v0 vs =>
    by_cases hv : v0 = []
    · simp [hv]
    · simp [hv, beq_iff_eq]

/-- **C2**  For every Method element (with the parser-folded name
`lowerStr n`) processed during rendering: the element writes no output and
leaves the variable mapping unchanged, and the skipping flag becomes false
exactly when the element's name equals the request method case-insensitively
and (it has no value constraints, or every constrained key is present in the
URL query and, where a value was given, equals the query's value for that
key), or the name is the literal wildcard `any`; otherwise skipping becomes
true. -/
theorem method_filter_semantics (env : Env) (req : Req) (fn : Str)
    (cont : Option (Req → Str)) (st : RState) (n : Str) (vals : Option Values) :
    (renderStep env req fn cont st ⟨.method, lowerStr n, vals⟩).out = st.out ∧
    (renderStep env req fn cont st ⟨.method, lowerStr n, vals⟩).vars = st.vars ∧
    ((renderStep env req fn cont st ⟨.method, lowerStr n, vals⟩).skipping = false ↔
      ((lowerStr n = lowerStr req.method ∧
        (vals = none ∨ ∀ kv ∈ vals.getD [], req.query.has kv.1 = true ∧
          (kv.2.headD [] ≠ [] → req.query.get kv.1 = kv.2.headD []))) ∨
       lowerStr n = "any".data)) := by
  have hstep : renderStep env req fn cont st ⟨.method, lowerStr n, vals⟩
      = if (((lowerStr n == lowerStr req.method)
            && (vals.isNone || matchQuery (vals.getD []) req.query))
          || (lowerStr n == "any".data)) = true then { st with skipping := false }
        else { st with skipping := true } := rfl
  have hcond : (((lowerStr n == lowerStr req.method)
            && (vals.isNone || matchQuery (vals.getD []) req.query))
          || (lowerStr n == "any".data)) = true ↔
      ((lowerStr n = lowerStr req.method ∧
        (vals = none ∨ ∀ kv ∈ vals.getD [], req.query.has kv.1 = true ∧
          (kv.2.headD [] ≠ [] → req.query.get kv.1 = kv.2.headD []))) ∨
       lowerStr n = "any".data) := by
    rw [Bool.or_eq_true, Bool.and_eq_true, Bool.or_eq_true, beq_iff_eq, beq_iff_eq,
      Option.isNone_iff_eq_none, matchQuery_eq_true_iff]
  by_cases hc : (((lowerStr n == lowerStr req.method)
            && (vals.isNone || matchQuery (vals.getD []) req.query))
          || (lowerStr n == "any".data)) = true
  · rw [hstep, if_pos hc]
    exact ⟨rfl, rfl, iff_of_true rfl (hcond.mp hc)⟩
  · rw [hstep, if_neg hc]
    exact ⟨rfl, rfl, iff_of_false (by simp) fun h => hc (hcond.mpr h)⟩

/-! ## Claim C8: the tag-start lookahead and the buffer bounds -/

/-- The byte indices read by the 7-byte doctype lookahead
`data[i+2:i+9]` at scan position `i` (htex.go lines 98-99). -/
def lookaheadIndices (i : Nat) : List Nat :=
  [i + 2, i + 3, i + 4, i + 5, i + 6, i + 7, i + 8]

/-- The byte indices read by the comment-start check
`data[i+2] == '-' && data[i+3] == '-'` (htex.go line 102). -/
def commentCheckIndices (i : Nat) : List Nat := [i + 2, i + 3]

/-- **C8**  Evaluated at the buffer `"<!-"` and scan position `i = 0`: the
tag-start guard `i+2 < len(data)` holds and the tag-start bytes match, yet
both the doctype lookahead and the comment-start check read indices at or
past the end of the buffer — the model's truncated lookahead receives fewer
than 7 bytes, and the split function still commits a decision (it returns
`"<!-"` as a tag-open token). -/
theorem oob_lookahead_at_tag_end :
    (0 + 2 < "<!-".data.length ∧ "<!-".data.headD ' ' = '<' ∧
      "<!-".data.tail.headD ' ' = '!') ∧
    (∃ j ∈ lookaheadIndices 0, "<!-".data.length ≤ j) ∧
    (∃ j ∈ commentCheckIndices 0, "<!-".data.length ≤ j) ∧
    ("<!-".data.tail.tail.take 7).length < 7 ∧
    tokenizeAll false "<!-".data = ["<!-".data, []] := by decide

/-! ## Claim C1: inputs without a tag start render unchanged -/

/-- A token that does not contain the `<!` tag-start sequence fails the
parser's tag-shape test. -/
theorem htexTagShape_eq_false_of_no_tag (data : Str) (h : ¬ (['<', '!'] <:+: data)) :
    htexTagShape data = false := by
  cases data with
  | nil => rfl
  | cons c rest =>
    cases rest with
    | nil => rfl
    | cons c2 rr =>
      by_cases h1 : c = '<'
      · by_cases h2 : c2 = '!'
        · exact absurd ⟨[], rr, by simp [h1, h2]⟩ h
        · unfold htexTagShape
          simp [h2]
      · unfold htexTagShape
        simp [h1]

/-- On a buffer without the `<!` sequence the tokenizer's scan loop runs off
the end without returning (whatever the pending text and enough fuel). -/
theorem scanLoop_none_of_no_tag (kc : Bool) :
    ∀ (data : Str) (fuel : Nat) (acc : Str), data.length ≤ fuel →
      ¬ (['<', '!'] <:+: data) → scanLoop kc false false fuel acc data = none := by
  intro data
  induction data with
  | nil =>
    intro fuel acc _ _
    cases fuel <;> rfl
  | cons c rest ih =>
    intro fuel acc hfuel hinf
    cases fuel with
    | zero => simp at hfuel
    | succ f =>
      have hlen : rest.length ≤ f := by
        simp only [List.length_cons] at hfuel; omega
      have htail : ¬ (['<', '!'] <:+: rest) := fun hx => hinf (List.infix_cons hx)
      have hcond : ¬ (2 ≤ rest.length ∧ c = '<' ∧ rest.headD ' ' = '!'
          ∧ equalFold (rest.tail.take 7) "doctype".data = false) := by
        rintro ⟨hlen2, hc, hh, -⟩
        cases rest with
        | nil => simp at hlen2
        | cons c2 rr =>
          simp only [List.headD_cons] at hh
          exact hinf ⟨[], rr, by simp [hc, hh]⟩
      show scanLoop kc false false (f + 1) acc (c :: rest) = none
      simp only [scanLoop]
      rw [if_neg (by simp), if_neg (by simp), if_neg (by simp), if_neg hcond]
      exact ih f (c :: acc) hlen htail

/-- Tokenizing a buffer without the `<!` sequence yields the whole buffer as
a single (EOF-flushed) token. -/
theorem tokenizeAll_no_tag (kc : Bool) (data : Str) (h : ¬ (['<', '!'] <:+: data)) :
    tokenizeAll kc data = [data] := by
  have hs := scanLoop_none_of_no_tag kc data data.length [] le_rfl h
  have hsplit : splitStep kc ⟨false, false, false⟩ data = .final data := by
    unfold splitStep
    rw [if_neg (by decide), hs]
  show scannerRun kc (2 * data.length + 7 + 1) ⟨false, false, false⟩ data = [data]
  simp only [scannerRun, hsplit]

/-- Parsing a single non-tag-shaped nonempty token yields one Text element
and no layout. -/
theorem parse_single_text (env : Env) (fn : Str) (data : Str)
    (hshape : htexTagShape data = false) (hd : data ≠ []) :
    parseHtexScanner env fn [data] = .ok (.mk fn [⟨.text, data, none⟩] none) := by
  show parseTokens env (2 * 1 + 63 + 1) fn false [] none [data] = _
  simp only [parseTokens, hshape]
  rw [if_neg (by simp), if_neg (by simp), if_pos hd]
  rfl

/-- **C1**  For every input byte sequence containing no `<!` tag-start
sequence, parsing it with `parseHtexScanner` and rendering the resulting
`HtexFile` with `writeHtexFile` (any request context, no layout, no
continuation) writes output equal to the input byte-for-byte. -/
theorem htex_text_roundtrip (env : Env) (req : Req) (fn : Str) (data : Str)
    (h : ¬ (['<', '!'] <:+: data)) :
    (parseHtexScanner env fn (tokenizeAll env.keepComments data)).map
      (fun hf => writeHtexFile env req hf none none) = .ok data := by
  rw [tokenizeAll_no_tag env.keepComments data h]
  by_cases hd : data = []
  · subst hd; rfl
  · rw [parse_single_text env fn data (htexTagShape_eq_false_of_no_tag data h) hd]
    rfl

/-- Witness for `htex_text_roundtrip` at a concrete tag-free input. -/
theorem htex_text_roundtrip_witness :
    ¬ (['<', '!'] <:+: "hello <b>world</b>&\n".data) ∧
    (parseHtexScanner (testEnv false) "t".data
        (tokenizeAll (testEnv false).keepComments "hello <b>world</b>&\n".data)).map
      (fun hf => writeHtexFile (testEnv false) reqGET hf none none)
      = .ok "hello <b>world</b>&\n".data :=
  ⟨by decide,
   htex_text_roundtrip (testEnv false) reqGET "t".data "hello <b>world</b>&\n".data
     (by decide)⟩

/-- One scan-loop iteration over a byte that is not `'<'` (outside any tag
or comment) just moves the cursor. -/
theorem scanLoop_cons_continue (kc : Bool) (f : Nat) (acc : Str) (c : Char) (rest : Str)
    (hc : c ≠ '<') :
    scanLoop kc false false (f + 1) acc (c :: rest)
      = scanLoop kc false false f (c :: acc) rest := by
  simp only [scanLoop]
  rw [if_neg (by simp), if_neg (by simp), if_neg (by simp), if_neg fun h => hc h.2.1]

/-- The scan loop passes over a `'<'`-free run of text unchanged. -/
theorem scanLoop_skip_text (kc : Bool) :
    ∀ (t : Str) (f : Nat) (acc rest : Str), (∀ c ∈ t, c ≠ '<') →
      scanLoop kc false false (t.length + f) acc (t ++ rest)
        = scanLoop kc false false f (t.reverse ++ acc) rest := by
  intro t
  induction t with
  | nil => intro f acc rest _; simp
  | cons c t' ih =>
    intro f acc rest h
    have hc : c ≠ '<' := h c (List.mem_cons_self c t')
    have e : (c :: t').length + f = (t'.length + f) + 1 := by
      simp only [List.length_cons]; omega
    rw [List.cons_append, e,
      scanLoop_cons_continue kc (t'.length + f) acc c (t' ++ rest) hc,
      ih f (c :: acc) rest fun x hx => h x (List.mem_cons_of_mem c hx)]
    simp [List.reverse_cons, List.append_assoc]

/-- A trailing bare `"<!"` is not recognized as a tag start (the guard
`i+2 < len(data)` fails), so the scan loop runs off the end. -/
theorem scanLoop_trailing_lt_bang (kc : Bool) (acc : Str) :
    scanLoop kc false false 2 acc ['<', '!'] = none := by
  show scanLoop kc false false (1 + 1) acc ('<' :: ['!']) = none
  simp only [scanLoop]
  rw [if_neg (by simp), if_neg (by simp), if_neg (by simp), if_neg (by simp)]
  show scanLoop kc false false (0 + 1) ('<' :: acc) ('!' :: []) = none
  simp only [scanLoop]
  rw [if_neg (by simp), if_neg (by simp), if_neg (by simp),
    if_neg fun h => absurd h.2.1 (by decide)]

/-- A trailing `"<!x"` is recognized as a tag start and flushes the pending
text. -/
theorem scanLoop_trailing_tag_x (kc : Bool) (acc : Str) (hA : acc ≠ []) :
    scanLoop kc false false 3 acc "<!x".data
      = some (acc.length, acc.reverse, ⟨true, false, false⟩) := by
  have h0 : 0 < acc.length := by
    cases acc with
    | nil => exact absurd rfl hA
    | cons a l => simp
  show scanLoop kc false false (2 + 1) acc ('<' :: ['!', 'x'])
      = some (acc.length, acc.reverse, ⟨true, false, false⟩)
  simp only [scanLoop]
  rw [if_neg (by simp), if_neg (by simp), if_neg (by simp), if_pos (by decide),
    if_neg (by decide), if_pos h0]

/-- Tokenizing text followed by a bare `"<!"`: one final flushed token. -/
theorem tokenizeAll_trailing_lt_bang (kc : Bool) (t : Str) (h : ∀ c ∈ t, c ≠ '<') :
    tokenizeAll kc (t ++ "<!".data) = [t ++ "<!".data] := by
  have hlen : (t ++ "<!".data).length = t.length + 2 := by simp
  have hs : scanLoop kc false false (t.length + 2) [] (t ++ "<!".data)
      = none := by
    rw [scanLoop_skip_text kc t 2 [] "<!".data h]
    exact scanLoop_trailing_lt_bang kc (t.reverse ++ [])
  have hsplit : splitStep kc ⟨false, false, false⟩ (t ++ "<!".data)
      = .final (t ++ "<!".data) := by
    unfold splitStep
    rw [if_neg (by decide), hlen, hs]
  show scannerRun kc (2 * (t ++ "<!".data).length + 7 + 1) ⟨false, false, false⟩
      (t ++ "<!".data) = [t ++ "<!".data]
  simp only [scannerRun, hsplit]

/-- Tokenizing nonempty `'<'`-free text followed by `"<!x"`: the text is
flushed, the truncated tag becomes a tag-open token, and the EOF flush adds
an empty final token. -/
theorem tokenizeAll_trailing_tag_x (kc : Bool) (t : Str) (h : ∀ c ∈ t, c ≠ '<')
    (htne : t ≠ []) :
    tokenizeAll kc (t ++ "<!x".data) = [t, "<!x".data, []] := by
  have hlen : (t ++ "<!x".data).length = t.length + 3 := by simp
  have hs : scanLoop kc false false (t.length + 3) [] (t ++ "<!x".data)
      = some (t.length, t, ⟨true, false, false⟩) := by
    rw [scanLoop_skip_text kc t 3 [] "<!x".data h]
    rw [scanLoop_trailing_tag_x kc (t.reverse ++ []) (by simpa using htne)]
    simp
  have hsplit : splitStep kc ⟨false, false, false⟩ (t ++ "<!x".data)
      = .tok t.length t ⟨true, false, false⟩ := by
    unfold splitStep
    rw [if_neg (by decide), hlen, hs]
  show scannerRun kc (2 * (t ++ "<!x".data).length + 7 + 1) ⟨false, false, false⟩
      (t ++ "<!x".data) = [t, "<!x".data, []]
  have hsplit2 : splitStep kc ⟨true, false, false⟩ "<!x".data
      = .tok 3 "<!x".data ⟨true, false, false⟩ := rfl
  have hsplit3 : splitStep kc ⟨true, false, false⟩ ([] : Str) = .final [] := rfl
  simp only [scannerRun, hsplit]
  rw [List.drop_left]
  simp only [hsplit2, show List.drop 3 "<!x".data = ([] : Str) from rfl, hsplit3]

/-- A token whose first byte is not `'<'` fails the parser's tag-shape
test. -/
theorem htexTagShape_eq_false_of_head (data : Str) (h : data.headD ' ' ≠ '<') :
    htexTagShape data = false := by
  unfold htexTagShape
  cases data with
  | nil => rfl
  | cons c rest =>
    simp only [List.headD_cons] at h
    simp [beq_eq_false_iff_ne.mpr h]

/-- Parsing a nonempty non-tag text token followed by the unknown tag-open
token `"<!x"` and the empty EOF flush: only the Text element survives (the
invalid element is logged and dropped). -/
theorem parse_text_then_invalid (env : Env) (fn t : Str)
    (hshape : htexTagShape t = false) (htne : t ≠ []) :
    parseHtexScanner env fn [t, "<!x".data, []]
      = .ok (.mk fn [⟨.text, t, none⟩] none) := by
  obtain ⟨lr, kc, rf, sf, md⟩ := env
  cases kc <;>
  · show parseTokens _ (2 * 3 + 63 + 1) fn false [] none [t, "<!x".data, []] = _
    simp only [parseTokens, hshape]
    rw [if_neg (by simp), if_neg (by simp), if_pos htne]
    rfl

/-- **C7, amended**  For every input ending in a truncated tag, rendering
completes without error and the remaining bytes are flushed as a final
token at EOF, but the fragment reaches the output verbatim only when it is
too short to be recognized as a tag start: with `'<'`-free text `t`, the
input `t ++ "<!"` (guard `i+2 < len` fails) renders byte-for-byte, while
`t ++ "<!x"` — a recognized but unterminated tag — renders just `t`, the
flushed `"<!x"` token being consumed as an invalid tag-open element rather
than emitted as text. -/
theorem truncated_tag_degrades (env : Env) (req : Req) (fn : Str) (t : Str)
    (h : ∀ c ∈ t, c ≠ '<') :
    (parseHtexScanner env fn (tokenizeAll env.keepComments (t ++ "<!".data))).map
      (fun hf => writeHtexFile env req hf none none) = .ok (t ++ "<!".data) ∧
    (parseHtexScanner env fn (tokenizeAll env.keepComments (t ++ "<!x".data))).map
      (fun hf => writeHtexFile env req hf none none) = .ok t := by
  constructor
  · rw [tokenizeAll_trailing_lt_bang env.keepComments t h]
    have hshape : htexTagShape (t ++ "<!".data) = false := by
      cases t with
      | nil => rfl
      | cons c t' =>
        exact htexTagShape_eq_false_of_head _
          (by simpa using h c (List.mem_cons_self c t'))
    rw [parse_single_text env fn (t ++ "<!".data) hshape (by simp)]
    rfl
  · match t, h with
    | [], _ =>
      obtain ⟨lr, kc, rf, sf, md⟩ := env
      cases kc <;> rfl
    | c :: t', h =>
      rw [tokenizeAll_trailing_tag_x env.keepComments (c :: t') h (by simp)]
      rw [parse_text_then_invalid env fn (c :: t')
        (htexTagShape_eq_false_of_head _
          (by simpa using h c (List.mem_cons_self c t'))) (by simp)]
      rfl

/-- Witness for `truncated_tag_degrades` at the concrete text `ab`. -/
theorem truncated_tag_degrades_witness :
    (∀ c ∈ "ab".data, c ≠ '<') ∧
    (parseHtexScanner (testEnv false) "t".data
        (tokenizeAll (testEnv false).keepComments ("ab".data ++ "<!".data))).map
      (fun hf => writeHtexFile (testEnv false) reqGET hf none none)
      = .ok ("ab".data ++ "<!".data) ∧
    (parseHtexScanner (testEnv false) "t".data
        (tokenizeAll (testEnv false).keepComments ("ab".data ++ "<!x".data))).map
      (fun hf => writeHtexFile (testEnv false) reqGET hf none none) = .ok "ab".data :=
  ⟨by decide,
   (truncated_tag_degrades (testEnv false) reqGET "t".data "ab".data (by decide)).1,
   (truncated_tag_degrades (testEnv false) reqGET "t".data "ab".data (by decide)).2⟩

/-! ## Claim C10: router rejection rules

The code checks `path.Ext` of the root-joined file name, while the claim
speaks about the cleaned URL path; the lemmas below show that `path.Clean`
and `path.Join` preserve a final `.htex` segment, which connects the two. -/

/-- `takeWhile` keeps a list all of whose elements satisfy the predicate. -/
theorem takeWhile_eq_self_of (p : Char → Bool) :
    ∀ l : Str, (∀ c ∈ l, p c = true) → l.takeWhile p = l := by
  intro l
  induction l with
  | nil => intro _; rfl
  | cons c l' ih =>
    intro h
    rw [List.takeWhile_cons, if_pos (h c (List.mem_cons_self c l'))]
    rw [ih fun x hx => h x (List.mem_cons_of_mem c hx)]

/-- `dropWhile` empties a list all of whose elements satisfy the
predicate. -/
theorem dropWhile_eq_nil_of (p : Char → Bool) :
    ∀ l : Str, (∀ c ∈ l, p c = true) → l.dropWhile p = [] := by
  intro l
  induction l with
  | nil => intro _; rfl
  | cons c l' ih =>
    intro h
    rw [List.dropWhile_cons, if_pos (h c (List.mem_cons_self c l'))]
    exact ih fun x hx => h x (List.mem_cons_of_mem c hx)

/-- Elements of a `takeWhile` satisfy the predicate. -/
theorem mem_takeWhile_pred (p : Char → Bool) :
    ∀ (l : Str) (x : Char), x ∈ l.takeWhile p → p x = true := by
  intro l
  induction l with
  | nil => intro x hx; simp [List.takeWhile] at hx
  | cons c l' ih =>
    intro x hx
    rw [List.takeWhile_cons] at hx
    by_cases hc : p c = true
    · rw [if_pos hc] at hx
      rcases List.mem_cons.mp hx with rfl | hx'
      · exact hc
      · exact ih x hx'
    · rw [if_neg hc] at hx
      simp at hx

/-- A `dropWhile` result is empty or starts with an element failing the
predicate. -/
theorem dropWhile_nil_or_head (p : Char → Bool) :
    ∀ l : Str, l.dropWhile p = [] ∨
      ∃ c l', l.dropWhile p = c :: l' ∧ p c = false := by
  intro l
  induction l with
  | nil => exact Or.inl rfl
  | cons c l' ih =>
    rw [List.dropWhile_cons]
    by_cases hc : p c = true
    · rw [if_pos hc]; exact ih
    · rw [if_neg hc]
      exact Or.inr ⟨c, l', rfl, by revert hc; cases p c <;> simp⟩

/-- Splitting `dropWhile` at a separator that fails the predicate. -/
theorem dropWhile_append_sep (p : Char → Bool) (hp : p '/' = false) :
    ∀ (a b : Str), (a ++ '/' :: b).dropWhile p = a.dropWhile p ++ '/' :: b := by
  intro a b
  induction a with
  | nil => simp [List.dropWhile_cons, hp]
  | cons c a' ih =>
    rw [List.cons_append, List.dropWhile_cons, List.dropWhile_cons]
    by_cases hc : p c = true
    · rw [if_pos hc, if_pos hc]; exact ih
    · rw [if_neg hc, if_neg hc, List.cons_append]

/-- `dropWhile` never lengthens a list. -/
theorem length_dropWhile_le' (p : Char → Bool) :
    ∀ l : Str, (l.dropWhile p).length ≤ l.length := by
  intro l
  induction l with
  | nil => simp
  | cons c l' ih =>
    rw [List.dropWhile_cons]
    by_cases hc : p c = true
    · rw [if_pos hc]; exact Nat.le_succ_of_le ih
    · rw [if_neg hc]

/-- Processing a final real path element: `cleanLoop` copies it whole (with
a separating slash when the output calls for one). -/
theorem cleanLoop_final_seg (rooted : Bool) (seg : Str) (hne : seg ≠ [])
    (hslash : ∀ c ∈ seg, c ≠ '/') (h1 : seg ≠ ".".data) (h2 : seg ≠ "..".data) :
    ∀ (fuel : Nat) (out : Str) (dd : Nat), seg.length ≤ fuel →
      cleanLoop rooted fuel seg out dd = seg.reverse ++
        (if (rooted ∧ out.length ≠ 1) ∨ (¬rooted ∧ out.length ≠ 0)
          then '/' :: out else out) := by
  intro fuel out dd hfuel
  match seg, hne with
  | c :: rest, _ =>
    have hc : c ≠ '/' := hslash c (List.mem_cons_self c rest)
    match fuel, hfuel with
    | f + 1, _ =>
      have hcond2 : ¬ (c = '.' ∧ (rest = [] ∨ rest.headD ' ' = '/')) := by
        rintro ⟨hcd, hr | hr⟩
        · exact h1 (by rw [hcd, hr])
        · match rest, hr with
          | r0 :: rest', hr =>
            simp only [List.headD_cons] at hr
            exact hslash r0 (List.mem_cons_of_mem c (List.mem_cons_self r0 rest')) hr
      have hcond3 : ¬ (c = '.' ∧ rest.headD ' ' = '.'
          ∧ (rest.tail = [] ∨ rest.tail.headD ' ' = '/')) := by
        rintro ⟨hcd, hh, ht | ht⟩
        · match rest, hh with
          | r0 :: rest', hh =>
            simp only [List.headD_cons] at hh
            simp only [List.tail_cons] at ht
            exact h2 (by rw [hcd, hh, ht])
        · match rest, hh with
          | r0 :: rest', hh =>
            simp only [List.tail_cons] at ht
            match rest', ht with
            | r1 :: rest'', ht =>
              simp only [List.headD_cons] at ht
              exact hslash r1 (List.mem_cons_of_mem c
                (List.mem_cons_of_mem r0 (List.mem_cons_self r1 rest''))) ht
      simp only [cleanLoop]
      rw [if_neg hc, if_neg hcond2, if_neg hcond3]
      have htw : (c :: rest).takeWhile (· ≠ '/') = c :: rest :=
        takeWhile_eq_self_of _ _ fun x hx => decide_eq_true (hslash x hx)
      have hdw : (c :: rest).dropWhile (· ≠ '/') = [] :=
        dropWhile_eq_nil_of _ _ fun x hx => decide_eq_true (hslash x hx)
      rw [htw, hdw]
      cases f <;> rfl

/-- `cleanLoop` on `'/' :: seg` (a slash then the final real element). -/
theorem cleanLoop_slash_seg (rooted : Bool) (seg : Str) (hne : seg ≠ [])
    (hslash : ∀ c ∈ seg, c ≠ '/') (h1 : seg ≠ ".".data) (h2 : seg ≠ "..".data)
    (fuel : Nat) (out : Str) (dd : Nat) (hfuel : ('/' :: seg).length ≤ fuel) :
    ∃ tail, cleanLoop rooted fuel ('/' :: seg) out dd = seg.reverse ++ tail := by
  match fuel, hfuel with
  | f + 1, hfuel =>
    simp only [cleanLoop]
    rw [if_pos trivial]
    rw [cleanLoop_final_seg rooted seg hne hslash h1 h2 f out dd
      (by simp only [List.length_cons] at hfuel; omega)]
    exact ⟨_, rfl⟩

/-- The central preservation lemma: whatever precedes the final slash, the
`path.Clean` loop ends by copying the final real element, so the (reversed)
output ends with it. -/
theorem cleanLoop_keeps_final_seg (seg : Str) (hne : seg ≠ [])
    (hslash : ∀ c ∈ seg, c ≠ '/') (h1 : seg ≠ ".".data) (h2 : seg ≠ "..".data) :
    ∀ (n : Nat) (s' : Str), s'.length ≤ n →
      ∀ (rooted : Bool) (fuel : Nat) (out : Str) (dd : Nat),
        (s' ++ '/' :: seg).length ≤ fuel →
        ∃ tail, cleanLoop rooted fuel (s' ++ '/' :: seg) out dd = seg.reverse ++ tail := by
  intro n
  induction n with
  | zero =>
    intro s' hs' rooted fuel out dd hfuel
    match s', hs' with
    | [], _ =>
      simp only [List.nil_append] at hfuel ⊢
      exact cleanLoop_slash_seg rooted seg hne hslash h1 h2 fuel out dd hfuel
  | succ m ih =>
    intro s' hs' rooted fuel out dd hfuel
    match s', hs' with
    | [], _ =>
      simp only [List.nil_append] at hfuel ⊢
      exact cleanLoop_slash_seg rooted seg hne hslash h1 h2 fuel out dd hfuel
    | c :: s'', hs' =>
      have hs'' : s''.length ≤ m := by
        simp only [List.length_cons] at hs'; omega
      match fuel, hfuel with
      | f + 1, hfuel =>
        have hflen : (s'' ++ '/' :: seg).length ≤ f := by
          simp only [List.cons_append, List.length_cons] at hfuel
          simp only [List.length_append, List.length_cons] at hfuel ⊢
          omega
        rw [List.cons_append]
        simp only [cleanLoop]
        by_cases hc1 : c = '/'
        · rw [if_pos hc1]
          exact ih s'' hs'' rooted f out dd hflen
        · rw [if_neg hc1]
          by_cases hc2 : c = '.' ∧ (s'' ++ '/' :: seg = [] ∨ (s'' ++ '/' :: seg).headD ' ' = '/')
          · rw [if_pos hc2]
            exact ih s'' hs'' rooted f out dd hflen
          · rw [if_neg hc2]
            by_cases hc3 : c = '.' ∧ (s'' ++ '/' :: seg).headD ' ' = '.'
                ∧ ((s'' ++ '/' :: seg).tail = [] ∨ (s'' ++ '/' :: seg).tail.headD ' ' = '/')
            · rw [if_pos hc3]
              match s'', hs'', hflen, hc3 with
              | [], _, _, hc3 =>
                simp at hc3
              | s0 :: s3, hs'', hflen, _ =>
                rw [show ((s0 :: s3) ++ '/' :: seg).tail = s3 ++ '/' :: seg from rfl]
                have hs3 : s3.length ≤ m := by
                  simp only [List.length_cons] at hs''; omega
                have hflen' : (s3 ++ '/' :: seg).length ≤ f := by
                  simp only [List.cons_append, List.length_cons, List.length_append]
                    at hflen ⊢
                  omega
                by_cases hd1 : dd < out.length
                · rw [if_pos hd1]
                  exact ih s3 hs3 rooted f (popSeg dd out) dd hflen'
                · rw [if_neg hd1]
                  by_cases hr : (!rooted) = true
                  · rw [if_pos hr]
                    exact ih s3 hs3 rooted f _ _ hflen'
                  · rw [if_neg hr]
                    exact ih s3 hs3 rooted f out dd hflen'
            · rw [if_neg hc3]
              rw [← List.cons_append,
                dropWhile_append_sep (fun x => decide (x ≠ '/')) (by decide) (c :: s'') seg]
              have hdw : (c :: s'').dropWhile (fun x => decide (x ≠ '/'))
                  = s''.dropWhile (fun x => decide (x ≠ '/')) := by
                rw [List.dropWhile_cons, if_pos (decide_eq_true hc1)]
              rw [hdw]
              have hdlen : (s''.dropWhile (fun x => decide (x ≠ '/'))).length ≤ m :=
                le_trans (length_dropWhile_le' _ _) hs''
              have hflen'' :
                  ((s''.dropWhile (fun x => decide (x ≠ '/'))) ++ '/' :: seg).length ≤ f := by
                have := length_dropWhile_le' (fun x => decide (x ≠ '/')) s''
                simp only [List.length_append, List.length_cons] at hflen ⊢
                omega
              exact ih _ hdlen rooted f _ dd hflen''

/-- `path.Clean` on a single real element (no slash, not `.`/`..`) is the
identity. -/
theorem goClean_of_single_seg (seg : Str) (hne : seg ≠ [])
    (hslash : ∀ c ∈ seg, c ≠ '/') (h1 : seg ≠ ".".data) (h2 : seg ≠ "..".data) :
    goClean seg = seg := by
  simp only [goClean]
  rw [if_neg hne]
  have hr : ¬ (seg.headD ' ' = '/') := by
    match seg, hne with
    | c :: r, _ => simpa using hslash c (List.mem_cons_self c r)
  rw [if_neg hr, decide_eq_false hr,
    cleanLoop_final_seg false seg hne hslash h1 h2 seg.length [] 0 le_rfl]
  rw [show (if ((false : Bool) = true ∧ ([] : Str).length ≠ 1)
        ∨ (¬(false : Bool) = true ∧ ([] : Str).length ≠ 0)
      then '/' :: ([] : Str) else []) = [] by simp]
  rw [List.append_nil, if_neg (by simp [hne]), List.reverse_reverse]

/-- A list is a suffix of the reverse of its own reverse with anything
appended. -/
theorem suffix_of_reverse_append (seg tail : Str) :
    seg <:+ (seg.reverse ++ tail).reverse :=
  ⟨tail.reverse, by rw [List.reverse_append, List.reverse_reverse]⟩

/-- `path.Clean` keeps the final real element of a path as a suffix. -/
theorem goClean_keeps_final_seg (s seg : Str) (hne : seg ≠ [])
    (hslash : ∀ c ∈ seg, c ≠ '/') (h1 : seg ≠ ".".data) (h2 : seg ≠ "..".data) :
    seg <:+ goClean (s ++ '/' :: seg) := by
  simp only [goClean]
  rw [if_neg (by simp)]
  cases s with
  | nil =>
    simp only [List.nil_append, List.headD_cons, List.tail_cons, List.length_cons]
    rw [if_pos trivial]
    rw [cleanLoop_final_seg _ seg hne hslash h1 h2 (seg.length + 1) ['/'] 1
      (Nat.le_succ _)]
    rw [if_neg (by simp [hne])]
    exact suffix_of_reverse_append seg _
  | cons c s' =>
    by_cases hc : c = '/'
    · rw [if_pos (show ((c :: s') ++ '/' :: seg).headD ' ' = '/' by simp [hc])]
      obtain ⟨tail, htail⟩ := cleanLoop_keeps_final_seg seg hne hslash h1 h2
        s'.length s' le_rfl
        (decide (((c :: s') ++ '/' :: seg).headD ' ' = '/'))
        (((c :: s') ++ '/' :: seg).length) ['/'] 1
        (by simp only [List.cons_append, List.length_cons, List.length_append]; omega)
      rw [show ((c :: s') ++ '/' :: seg).tail = s' ++ '/' :: seg by simp]
      rw [htail]
      rw [if_neg (by simp [hne])]
      exact htail ▸ suffix_of_reverse_append seg tail
    · rw [if_neg (show ¬ ((c :: s') ++ '/' :: seg).headD ' ' = '/' by simp [hc])]
      obtain ⟨tail, htail⟩ := cleanLoop_keeps_final_seg seg hne hslash h1 h2
        (c :: s').length (c :: s') le_rfl
        (decide (((c :: s') ++ '/' :: seg).headD ' ' = '/'))
        (((c :: s') ++ '/' :: seg).length) [] 0 le_rfl
      rw [htail]
      rw [if_neg (by simp [hne])]
      exact htail ▸ suffix_of_reverse_append seg tail

/-- Every path ending in `".htex"` decomposes into an optional prefix and a
final slash-free segment that still ends in `".htex"`. -/
theorem exists_last_seg : ∀ (v : Str), ∃ pre seg : Str,
    (v ++ ".htex".data = pre ++ '/' :: seg ∨ v ++ ".htex".data = seg) ∧ seg ≠ []
      ∧ (∀ c ∈ seg, c ≠ '/') ∧ ".htex".data <:+ seg := by
  intro v
  induction v with
  | nil =>
    exact ⟨[], ".htex".data, Or.inr rfl, by decide, by decide, ⟨[], rfl⟩⟩
  | cons c v' ih =>
    obtain ⟨pre, seg, hdec, hne, hslash, hsuf⟩ := ih
    rcases hdec with hL | hR
    · exact ⟨c :: pre, seg,
        Or.inl (by rw [List.cons_append, hL, List.cons_append]), hne, hslash, hsuf⟩
    · by_cases hc : c = '/'
      · refine ⟨[], seg, Or.inl ?_, hne, hslash, hsuf⟩
        rw [List.cons_append, hR, hc, List.nil_append]
      · refine ⟨pre, c :: seg, Or.inr ?_, by simp, ?_, ?_⟩
        · rw [List.cons_append, hR]
        · intro x hx
          rcases List.mem_cons.mp hx with rfl | hx'
          · exact hc
          · exact hslash x hx'
        · obtain ⟨w, hw⟩ := hsuf
          exact ⟨c :: w, by rw [List.cons_append, hw]⟩

/-- A segment ending in `".htex"` is neither `"."` nor `".."`. -/
theorem seg_ne_dots (seg : Str) (h : ".htex".data <:+ seg) :
    seg ≠ ".".data ∧ seg ≠ "..".data := by
  obtain ⟨w, rfl⟩ := h
  refine ⟨fun he => ?_, fun he => ?_⟩ <;>
  · have := congrArg List.length he
    rw [List.length_append] at this
    rw [show (".htex".data).length = 5 from rfl] at this
    first
      | rw [show ((".".data : Str)).length = 1 from rfl] at this
      | rw [show (("..".data : Str)).length = 2 from rfl] at this
    omega

/-- `path.Ext` of a path ending in `".htex"` is `".htex"`. -/
theorem goExt_of_suffix_htex (u : Str) (h : ".htex".data <:+ u) :
    goExt u = ".htex".data := by
  obtain ⟨v, rfl⟩ := h
  unfold goExt
  rw [List.reverse_append]
  rfl

/-- `path.Base` of a path ending in `".htex"` is not `"."`. -/
theorem goBase_ne_dot_of_suffix_htex (fn : Str) (h : ".htex".data <:+ fn) :
    goBase fn ≠ ".".data := by
  obtain ⟨v, rfl⟩ := h
  simp only [goBase]
  rw [if_neg (by simp)]
  have hq : (v ++ ".htex".data).reverse.dropWhile (fun x => decide (x = '/'))
      = 'x' :: 'e' :: 't' :: 'h' :: '.' :: v.reverse := by
    rw [List.reverse_append]; rfl
  rw [hq]
  rw [show ('x' :: 'e' :: 't' :: 'h' :: '.' :: v.reverse).takeWhile
        (fun x => decide (x ≠ '/'))
      = 'x' :: 'e' :: 't' :: 'h' :: '.' :: (v.reverse.takeWhile fun x => decide (x ≠ '/'))
      from rfl]
  rw [if_neg (by simp)]
  intro heq
  have := congrArg List.length heq
  simp only [List.length_reverse, List.length_cons, List.length_nil] at this
  omega

/-- `path.Join` with an arbitrary root keeps a final `".htex"`. -/
theorem goJoin_suffix_htex (root u : Str) (h : ".htex".data <:+ u) :
    ".htex".data <:+ goJoin root u := by
  obtain ⟨v, rfl⟩ := h
  obtain ⟨pre, seg, hdec, hne, hslash, hsuf⟩ := exists_last_seg v
  obtain ⟨hd1, hd2⟩ := seg_ne_dots seg hsuf
  unfold goJoin
  by_cases hroot : root = []
  · rw [if_pos hroot, if_neg (by simp)]
    rcases hdec with hL | hR
    · rw [hL]
      exact hsuf.trans (goClean_keeps_final_seg pre seg hne hslash hd1 hd2)
    · rw [hR, goClean_of_single_seg seg hne hslash hd1 hd2]
      exact hsuf
  · rw [if_neg hroot]
    rcases hdec with hL | hR
    · rw [hL]
      rw [show root ++ '/' :: (pre ++ '/' :: seg) = (root ++ '/' :: pre) ++ '/' :: seg
        by simp]
      exact hsuf.trans (goClean_keeps_final_seg (root ++ '/' :: pre) seg hne hslash hd1 hd2)
    · rw [hR]
      exact hsuf.trans (goClean_keeps_final_seg root seg hne hslash hd1 hd2)

/-- `path.Clean` keeps a final `".htex"` suffix. -/
theorem goClean_suffix_htex (u : Str) (h : ".htex".data <:+ u) :
    ".htex".data <:+ goClean u := by
  obtain ⟨v, rfl⟩ := h
  obtain ⟨pre, seg, hdec, hne, hslash, hsuf⟩ := exists_last_seg v
  obtain ⟨hd1, hd2⟩ := seg_ne_dots seg hsuf
  rcases hdec with hL | hR
  · rw [hL]
    exact hsuf.trans (goClean_keeps_final_seg pre seg hne hslash hd1 hd2)
  · rw [hR, goClean_of_single_seg seg hne hslash hd1 hd2]
    exact hsuf

/-- The claim's per-segment reading of the hidden-path rule: some
`/`-separated segment of the URL starts with `.` and is not exactly
`.well-known`.  (Stated from the specification's words, for comparison with
the substring-and-prefix test the code performs.) -/
def hiddenSegmentSpec (url : Str) : Bool :=
  (url.splitOn '/').any fun seg => seg.headD ' ' == '.' && seg != ".well-known".data

/-- A file system whose only entry is the regular file
`root/.well-knownx`. -/
def hiddenEnv : Env :=
  ⟨"root".data, false, noFiles,
    fun p => if p = "root/.well-knownx".data then .regular else .missing, id⟩

/-- A file system whose only entry is the regular file `root/foo.htex`. -/
def fooEnv : Env :=
  ⟨"root".data, false, noFiles,
    fun p => if p = "root/foo.htex".data then .regular else .missing, id⟩

/-- C10 counterexample: the URL `/.well-knownx` has a path segment that
starts with `.` and is not `.well-known`, so the claim demands an early 404;
the code instead serves the file, because its exemption tests the string
prefix `/.well-known` rather than the segment `.well-known`. -/
theorem hidden_wellknown_counterexample :
    hiddenSegmentSpec (goClean "/.well-knownx".data) = true
    ∧ serveHTTP hiddenEnv "/.well-knownx".data
        = .serveStatic "root/.well-knownx".data := by
  exact ⟨rfl, rfl⟩

/-- C10 (amended): a request path ending in `".htex"` is rejected by
`ServeHTTP` before any file lookup; a cleaned URL containing the substring
`"/."` is rejected early unless the cleaned URL starts with the string
prefix `"/.well-known"` (a prefix exemption, not a per-segment one);
concretely, `/foo.htex` yields the early 404 while `/foo` serves
`root/foo.htex` dynamically. -/
theorem serveHTTP_rejects_amended :
    (∀ (env : Env) (p : Str), ".htex".data <:+ p →
        serveHTTP env p = .earlyNotFoundHtex)
    ∧ (∀ (env : Env) (p : Str),
        strContains (goClean p) "/.".data = true →
        "/.well-known".data.isPrefixOf (goClean p) = false →
        serveHTTP env p = .earlyNotFoundHtex
          ∨ serveHTTP env p = .earlyNotFoundHidden)
    ∧ serveHTTP fooEnv "/foo.htex".data = .earlyNotFoundHtex
    ∧ serveHTTP fooEnv "/foo".data = .serveDynamic "root/foo.htex".data := by
  refine ⟨?_, ?_, rfl, rfl⟩
  · intro env p hp
    have h1 : ".htex".data <:+ goClean p := goClean_suffix_htex p hp
    have h2 : ".htex".data <:+ goJoin env.localRoot (goClean p) :=
      goJoin_suffix_htex env.localRoot (goClean p) h1
    simp only [serveHTTP]
    rw [if_neg (goBase_ne_dot_of_suffix_htex _ h2)]
    rw [if_pos (goExt_of_suffix_htex _ h2)]
  · intro env p h1 h2
    simp only [serveHTTP]
    by_cases hx : goExt (if goBase (goJoin env.localRoot (goClean p)) = ".".data
        then goJoin (goDir (goJoin env.localRoot (goClean p))) "index".data
        else goJoin env.localRoot (goClean p)) = ".htex".data
    · exact Or.inl (by rw [if_pos hx])
    · have hc : (strContains (goClean p) "/.".data
          && !("/.well-known".data.isPrefixOf (goClean p))) = true := by
        rw [h1, h2]; rfl
      exact Or.inr (by rw [if_neg hx, if_pos hc])

/-- C10 witness: the general clauses of the amended theorem at the concrete
paths `/a/b.htex` and `/.git/config` in the empty environment. -/
theorem serveHTTP_rejects_amended_witness :
    serveHTTP (testEnv false) "/a/b.htex".data = .earlyNotFoundHtex
    ∧ serveHTTP (testEnv false) "/.git/config".data = .earlyNotFoundHidden := by
  constructor
  · exact serveHTTP_rejects_amended.1 (testEnv false) "/a/b.htex".data
      ⟨"/a/b".data, rfl⟩
  · rcases serveHTTP_rejects_amended.2.1 (testEnv false) "/.git/config".data
      (by decide) (by decide) with h | h
    · exact absurd h (by decide)
    · exact h
